import Mathlib

/-!
Verification of the dijnet CLI core (cmd/dijnet/main.go): the local archive
scanner, provider resolver, date range planner, and download orchestrator.
All definitions are shallow embeddings of the Go source; theorems check the
specification's claims against them.
-/

namespace Dijnet

/-! ## Dates

`time.Time` values in the program are always midnight-UTC calendar dates
produced by `time.Parse("2006-01-02", ·)` or the zero value `time.Time{}`
(January 1 of year 1).  We model them as year/month/day triples; `dateLt`
is the instant order restricted to such dates (`a.After(b)` in Go is
`dateLt b a`). -/

structure Date where
  year : Nat
  month : Nat
  day : Nat
deriving DecidableEq, Repr

/-- The Go zero value `time.Time{}`: January 1, year 1 (`IsZero` compares
against exactly this value for the dates this program constructs). -/
def zeroDate : Date := ⟨1, 1, 1⟩

/-- Strict order on dates; `from.After(to)` in the source is `dateLt to from`. -/
def dateLt (a b : Date) : Prop :=
  a.year < b.year ∨ (a.year = b.year ∧
    (a.month < b.month ∨ (a.month = b.month ∧ a.day < b.day)))

instance (a b : Date) : Decidable (dateLt a b) := by
  unfold dateLt; infer_instance

/-- Boolean form of `time.Time.After`: `dateAfter a b` is Go's `a.After(b)`. -/
def dateAfter (a b : Date) : Bool := decide (dateLt b a)

/-- Leap year rule used by Go's `time` package (proleptic Gregorian). -/
def isLeap (y : Nat) : Bool := y % 4 == 0 && (y % 100 != 0 || y % 400 == 0)

/-- Days in a month, as validated by `time.Parse` and used by `AddDate`. -/
def daysInMonth (y m : Nat) : Nat :=
  if m = 2 then (if isLeap y then 29 else 28)
  else if m = 4 ∨ m = 6 ∨ m = 9 ∨ m = 11 then 30
  else 31

/-- Go `t.AddDate(0, 0, 1)` for the valid calendar dates this program builds
(dates from `time.Parse` and the zero date): the next calendar day. -/
def addOneDay (d : Date) : Date :=
  if d.day < daysInMonth d.year d.month then ⟨d.year, d.month, d.day + 1⟩
  else if d.month < 12 then ⟨d.year, d.month + 1, 1⟩
  else ⟨d.year + 1, 1, 1⟩

def isDigit (c : Char) : Bool := '0' ≤ c && c ≤ '9'

def digitVal (c : Char) : Nat := c.toNat - 48

/-- Go `time.Parse("2006-01-02", s)`: exactly ten characters `YYYY-MM-DD`, all
digit positions numeric, month in 1..12 and day in range for that month
(Go rejects impossible calendar dates such as `2024-02-30`). -/
def parseDate (s : String) : Option Date :=
  match s.data with
  | [y1, y2, y3, y4, '-', m1, m2, '-', d1, d2] =>
    if [y1, y2, y3, y4, m1, m2, d1, d2].all isDigit then
      let y := ((digitVal y1 * 10 + digitVal y2) * 10 + digitVal y3) * 10 + digitVal y4
      let m := digitVal m1 * 10 + digitVal m2
      let d := digitVal d1 * 10 + digitVal d2
      if 1 ≤ m ∧ m ≤ 12 ∧ 1 ≤ d ∧ d ≤ daysInMonth y m then some ⟨y, m, d⟩ else none
    else none
  | _ => none

/-! ## Go string primitives

The catalog names and operator inputs in this program are ASCII or Latin-1
text.  `goCharToLower` models `unicode.ToLower` on the ASCII and Latin-1
ranges (identity elsewhere), which covers every string this program and its
specification mention; `goIsSpace` models `unicode.IsSpace` on the same
ranges. -/

def goCharToLower (c : Char) : Char :=
  if 'A' ≤ c && c ≤ 'Z' then Char.ofNat (c.toNat + 32)
  else if 0xC0 ≤ c.toNat && c.toNat ≤ 0xDE && c.toNat != 0xD7 then Char.ofNat (c.toNat + 32)
  else c

/-- Go `strings.ToLower`: lowercase every rune. -/
def goToLower (s : String) : String := ⟨s.data.map goCharToLower⟩

/-- Go `unicode.IsSpace` on ASCII and Latin-1. -/
def goIsSpace (c : Char) : Bool :=
  c == ' ' || c == '\t' || c == '\n' || c == '\u000B' || c == '\u000C' ||
  c == '\r' || c == '\u0085' || c == '\u00A0'

/-- Go `strings.TrimSpace`: drop leading and trailing whitespace runes. -/
def goTrimSpace (s : String) : String :=
  ⟨((s.data.dropWhile goIsSpace).reverse.dropWhile goIsSpace).reverse⟩

/-- Does `s` start with `sub`? -/
def listStarts : List Char → List Char → Bool
  | [], _ => true
  | _ :: _, [] => false
  | a :: as, b :: bs => a == b && listStarts as bs

/-- Does `sub` occur contiguously inside `s`? -/
def listHasSub (s sub : List Char) : Bool :=
  listStarts sub s ||
    match s with
    | [] => false
    | _ :: tl => listHasSub tl sub

/-- Go `strings.Contains s sub`: `sub` occurs as a contiguous substring of `s`. -/
def goContains (s sub : String) : Bool := listHasSub s.data sub.data

/-- Go `strings.ReplaceAll s old new` for one-character `old`/`new` (the only
use in the source replaces `"/"` with `"_"`), which acts per character. -/
def goReplaceAllChar (s : String) (old new : Char) : String :=
  ⟨s.data.map (fun c => if c = old then new else c)⟩

/-! ## Local archive scanner (`latestInvoiceDate`, lines 188-231)

The walk over the invoice directory is modelled as a tree of named entries;
`filepath.WalkDir` visits every file in it, and the callback sees the
file's base name. -/

/-- The regular expression
`invoiceFilenameDateRegex = ^(\d{4}-\d{2}-\d{2})_.*\.(pdf|xml)$`, applied to
an (already lowercased) character list.  The match is forced: the date and
underscore occupy the first eleven characters, the literal dot and extension
the last four, and `.*` spans the middle, where it may match anything except
a newline (RE2 `.` excludes `\n`). -/
def invoiceNameMatches (cs : List Char) : Bool :=
  match cs with
  | y1 :: y2 :: y3 :: y4 :: '-' :: m1 :: m2 :: '-' :: d1 :: d2 :: '_' :: rest =>
    [y1, y2, y3, y4, m1, m2, d1, d2].all isDigit &&
    rest.length ≥ 4 &&
    (rest.drop (rest.length - 4) == ".pdf".data ||
     rest.drop (rest.length - 4) == ".xml".data) &&
    (rest.take (rest.length - 4)).all (fun c => c != '\n')
  | _ => false

/-- Lines 210-218: lowercase the base name, match it against
`invoiceFilenameDateRegex`, and strictly parse the captured date; a name
that fails either step contributes nothing. -/
def filenameDate (name : String) : Option Date :=
  let cs := (goToLower name).data
  if invoiceNameMatches cs then parseDate ⟨cs.take 10⟩ else none

/-- A directory tree: what `filepath.WalkDir` traverses. -/
inductive EntryTree where
  | file (name : String)
  | dir (name : String) (children : List EntryTree)

mutual

/-- Base names of all files in the tree, in walk order. -/
def treeFiles : EntryTree → List String
  | .file n => [n]
  | .dir _ cs => treeFilesList cs

def treeFilesList : List EntryTree → List String
  | [] => []
  | t :: ts => treeFiles t ++ treeFilesList ts

end

/-- Lines 219-222: `if !found || date.After(latest) { latest, found = date, true }`,
with the accumulator `(latest, found)` starting at `(time.Time{}, false)`. -/
def scanStep (acc : Date × Bool) (name : String) : Date × Bool :=
  match filenameDate name with
  | none => acc
  | some d => if !acc.2 || dateAfter d acc.1 then (d, true) else acc

/-- The scanner's fold over the visited file names. -/
def scanList (names : List String) : Date × Bool :=
  names.foldl scanStep (zeroDate, false)

/-- Model of `latestInvoiceDate` on an existing directory tree: the walk visits every
file and folds `scanStep` over the base names. -/
def latestInvoiceDate (t : EntryTree) : Date × Bool := scanList (treeFiles t)

/-- The strictly parseable dates among the matching filenames of a list. -/
def parsedDates (names : List String) : List Date := names.filterMap filenameDate

/-! ### Order lemmas for dates -/

theorem dateLt_irrefl (a : Date) : ¬ dateLt a a := by
  unfold dateLt; omega

theorem dateLt_trans {a b c : Date} (h1 : dateLt a b) (h2 : dateLt b c) :
    dateLt a c := by
  unfold dateLt at *; omega

theorem dateLt_total (a b : Date) : dateLt a b ∨ a = b ∨ dateLt b a := by
  rcases a with ⟨ya, ma, da⟩; rcases b with ⟨yb, mb, db⟩
  unfold dateLt
  simp only [Date.mk.injEq]
  omega

/-! ### Characterizing the scanner's fold -/

/-- Predicate: `r` is a maximum of `ds`: it occurs there and no member exceeds it. -/
def maxOf (r : Date) (ds : List Date) : Prop :=
  r ∈ ds ∧ ∀ e ∈ ds, ¬ dateLt r e

theorem parsedDates_cons_none {x : String} {l : List String}
    (h : filenameDate x = none) : parsedDates (x :: l) = parsedDates l := by
  simp [parsedDates, List.filterMap_cons, h]

theorem parsedDates_cons_some {x : String} {l : List String} {d : Date}
    (h : filenameDate x = some d) :
    parsedDates (x :: l) = d :: parsedDates l := by
  simp [parsedDates, List.filterMap_cons, h]

/-- Once a date is held, the fold keeps `found = true` and tracks the maximum
of the held date and all later parsed dates. -/
theorem foldl_scanStep_found (l : List String) :
    ∀ y : Date, (l.foldl scanStep (y, true)).2 = true ∧
      maxOf (l.foldl scanStep (y, true)).1 (y :: parsedDates l) := by
  induction l with
  | nil =>
    intro y
    refine ⟨rfl, List.mem_singleton_self y, ?_⟩
    intro e he
    rw [List.mem_singleton.mp he]
    exact dateLt_irrefl y
  | cons x l ih =>
    intro y
    cases h : filenameDate x with
    | none =>
      have hstep : scanStep (y, true) x = (y, true) := by
        simp [scanStep, h]
      rw [List.foldl_cons, hstep, parsedDates_cons_none h]
      exact ih y
    | some d =>
      have hpd := parsedDates_cons_some (l := l) h
      by_cases hlt : dateLt y d
      · have hstep : scanStep (y, true) x = (d, true) := by
          simp [scanStep, h, dateAfter, hlt]
        rw [List.foldl_cons, hstep, hpd]
        obtain ⟨hf, hmem, hub⟩ := ih d
        refine ⟨hf, List.mem_cons_of_mem y hmem, ?_⟩
        intro e he
        rcases List.mem_cons.mp he with he | he
        · subst he
          intro hr
          exact hub d (List.mem_cons_self d _) (dateLt_trans hr hlt)
        · exact hub e he
      · have hstep : scanStep (y, true) x = (y, true) := by
          simp [scanStep, h, dateAfter, hlt]
        rw [List.foldl_cons, hstep, hpd]
        obtain ⟨hf, hmem, hub⟩ := ih y
        refine ⟨hf, ?_, ?_⟩
        · rcases List.mem_cons.mp hmem with hm | hm
          · rw [hm]; exact List.mem_cons_self y _
          · exact List.mem_cons_of_mem y (List.mem_cons_of_mem d hm)
        · intro e he
          have hy : ¬ dateLt (l.foldl scanStep (y, true)).1 y :=
            hub y (List.mem_cons_self y _)
          rcases List.mem_cons.mp he with he | he
          · exact he ▸ hy
          rcases List.mem_cons.mp he with he | he
          · subst he
            rcases dateLt_total e y with hey | hey | hey
            · intro hr; exact hy (dateLt_trans hr hey)
            · exact hey ▸ hy
            · exact absurd hey hlt
          · exact hub e (List.mem_cons_of_mem y he)

/-- From the scanner's initial accumulator: either nothing matched and the
result is `(zeroDate, false)`, or the result is `(m, true)` with `m` the
maximum parsed date. -/
theorem scanList_spec (l : List String) :
    (parsedDates l = [] ∧ scanList l = (zeroDate, false)) ∨
      ((scanList l).2 = true ∧ maxOf (scanList l).1 (parsedDates l)) := by
  induction l with
  | nil => exact Or.inl ⟨rfl, rfl⟩
  | cons x l ih =>
    cases h : filenameDate x with
    | none =>
      have hstep : scanStep (zeroDate, false) x = (zeroDate, false) := by
        simp [scanStep, h]
      have hl : scanList (x :: l) = scanList l := by
        simp only [scanList, List.foldl_cons, hstep]
      rw [hl, parsedDates_cons_none h]
      exact ih
    | some d =>
      have hstep : scanStep (zeroDate, false) x = (d, true) := by
        simp [scanStep, h]
      have hl : scanList (x :: l) = l.foldl scanStep (d, true) := by
        simp only [scanList, List.foldl_cons, hstep]
      rw [hl, parsedDates_cons_some h]
      exact Or.inr (foldl_scanStep_found l d)

/-- A maximum is determined by the members of the list. -/
theorem maxOf_unique {r1 r2 : Date} {ds1 ds2 : List Date}
    (hp : ds1.Perm ds2) (h1 : maxOf r1 ds1) (h2 : maxOf r2 ds2) : r1 = r2 := by
  have hm1 : r1 ∈ ds2 := hp.mem_iff.mp h1.1
  have hm2 : r2 ∈ ds1 := hp.mem_iff.mpr h2.1
  rcases dateLt_total r1 r2 with h | h | h
  · exact absurd h (h1.2 r2 hm2)
  · exact h
  · exact absurd h (h2.2 r1 hm1)

/-- The scanner's result is invariant under permuting the visited names. -/
theorem scanList_perm {l1 l2 : List String} (hp : l1.Perm l2) :
    scanList l1 = scanList l2 := by
  have hpd : (parsedDates l1).Perm (parsedDates l2) := hp.filterMap filenameDate
  rcases scanList_spec l1 with ⟨hn1, he1⟩ | ⟨hf1, hm1⟩
  · rcases scanList_spec l2 with ⟨hn2, he2⟩ | ⟨hf2, hm2⟩
    · rw [he1, he2]
    · rw [hn1] at hpd
      rw [hpd.symm.eq_nil] at hm2
      exact absurd hm2.1 (List.not_mem_nil _)
  · rcases scanList_spec l2 with ⟨hn2, he2⟩ | ⟨hf2, hm2⟩
    · rw [hn2] at hpd
      rw [hpd.eq_nil] at hm1
      exact absurd hm1.1 (List.not_mem_nil _)
    · have hv : (scanList l1).1 = (scanList l2).1 := maxOf_unique hpd hm1 hm2
      have : (scanList l1).2 = (scanList l2).2 := by rw [hf1, hf2]
      exact Prod.ext hv this

/-- Claim C2: over any archive tree, the scanner's `latestDate` is the
maximum strictly-parseable date among filenames matching the anchored
`YYYY-MM-DD_<suffix>.(pdf|xml)` pattern case-insensitively; `found` holds
iff some filename matched and parsed; the result is independent of
directory nesting (it is a function of the walked names, invariant under
permuting them); and inserting a non-matching file anywhere never changes
the result. -/
theorem C2_scanner (t t2 : EntryTree) (l1 l2 : List String) (bad : String) :
    ((latestInvoiceDate t).2 = true →
      (latestInvoiceDate t).1 ∈ parsedDates (treeFiles t) ∧
        ∀ e ∈ parsedDates (treeFiles t), ¬ dateLt (latestInvoiceDate t).1 e) ∧
    ((latestInvoiceDate t).2 = true ↔
      ∃ name ∈ treeFiles t, (filenameDate name).isSome) ∧
    ((treeFiles t).Perm (treeFiles t2) →
      latestInvoiceDate t = latestInvoiceDate t2) ∧
    (filenameDate bad = none →
      scanList (l1 ++ bad :: l2) = scanList (l1 ++ l2)) := by
  refine ⟨?_, ?_, ?_, ?_⟩
  · intro hf
    rcases scanList_spec (treeFiles t) with ⟨_, he⟩ | ⟨_, hm⟩
    · rw [latestInvoiceDate, he] at hf
      exact absurd hf (by simp)
    · exact hm
  · constructor
    · intro hf
      rcases scanList_spec (treeFiles t) with ⟨_, he⟩ | ⟨_, hm⟩
      · rw [latestInvoiceDate, he] at hf
        exact absurd hf (by simp)
      · obtain ⟨name, hn, hd⟩ := List.mem_filterMap.mp hm.1
        exact ⟨name, hn, by rw [hd]; rfl⟩
    · intro ⟨name, hn, hd⟩
      rcases scanList_spec (treeFiles t) with ⟨hnil, _⟩ | ⟨hf, _⟩
      · obtain ⟨d, hd⟩ := Option.isSome_iff_exists.mp hd
        have : d ∈ parsedDates (treeFiles t) :=
          List.mem_filterMap.mpr ⟨name, hn, hd⟩
        rw [hnil] at this
        exact absurd this (List.not_mem_nil d)
      · exact hf
  · exact fun hp => scanList_perm hp
  · intro hb
    have hstep : ∀ a : Date × Bool, scanStep a bad = a := by
      intro a; simp [scanStep, hb]
    simp only [scanList, List.foldl_append, List.foldl_cons, hstep]

/-- A sample archive: nested directories, matching and non-matching files. -/
def sampleTree : EntryTree :=
  .dir "invoices" [
    .file "2024-03-05_Abc.PDF",
    .dir "Water Corp" [.file "notes.txt", .file "2023-01-01_x.xml"],
    .file "2024-02-30_bad.pdf"]

/-- The same files, reshuffled into a different nesting. -/
def sampleTree2 : EntryTree :=
  .dir "archive" [
    .dir "a" [.file "2023-01-01_x.xml", .file "2024-03-05_Abc.PDF"],
    .file "notes.txt",
    .file "2024-02-30_bad.pdf"]

theorem C2_scanner_witness :
    ((latestInvoiceDate sampleTree).1 ∈ parsedDates (treeFiles sampleTree) ∧
      ∀ e ∈ parsedDates (treeFiles sampleTree),
        ¬ dateLt (latestInvoiceDate sampleTree).1 e) ∧
    latestInvoiceDate sampleTree = latestInvoiceDate sampleTree2 ∧
    scanList (["x.txt"] ++ "README.md" :: ["2024-03-05_a.pdf"]) =
      scanList (["x.txt"] ++ ["2024-03-05_a.pdf"]) := by
  have h := C2_scanner sampleTree sampleTree2 ["x.txt"] ["2024-03-05_a.pdf"]
    "README.md"
  exact ⟨h.1 (by decide), h.2.2.1 (by decide), h.2.2.2 (by decide)⟩

/-! ## Provider resolver (`resolveProvider`, lines 259-288)

Go returns `(string, error)`; we model it as `Except String String`, where
`Except.error input` is the `provider %q not found` error carrying the
original input and `Except.ok ""` is the "no filter" result. -/

instance {e a : Type} [DecidableEq e] [DecidableEq a] :
    DecidableEq (Except e a) := fun x y =>
  match x, y with
  | .ok u, .ok v =>
    if h : u = v then isTrue (by rw [h]) else
      isFalse (fun hc => h (Except.ok.inj hc))
  | .error u, .error v =>
    if h : u = v then isTrue (by rw [h]) else
      isFalse (fun hc => h (Except.error.inj hc))
  | .ok _, .error _ => isFalse (fun hc => Except.noConfusion hc)
  | .error _, .ok _ => isFalse (fun hc => Except.noConfusion hc)

def resolveProvider (input : String) (providers : List String) :
    Except String String :=
  if input = "" then Except.ok ""
  else
    match providers.find? (fun p => p == input) with
    | some p => Except.ok p
    | none =>
      let inputLower := goToLower (goTrimSpace input)
      if inputLower = "" then Except.ok ""
      else
        match providers.find? (fun p => goToLower p == inputLower) with
        | some p => Except.ok p
        | none =>
          match providers.find? (fun p => goContains (goToLower p) inputLower) with
          | some p => Except.ok p
          | none => Except.error input

/-- Modelled from the spec's words (§4.2 tie-break policy) for comparison
with `resolveProvider`: for a non-empty input, evaluate tier 1 (byte-exact),
tier 2 (case-insensitive trimmed exact), tier 3 (case-insensitive
substring, first catalog entry in order) and otherwise fail carrying the
input — with no further guards. -/
def resolveTiers (input : String) (providers : List String) :
    Except String String :=
  match providers.find? (fun p => p == input) with
  | some p => Except.ok p
  | none =>
    let inputLower := goToLower (goTrimSpace input)
    match providers.find? (fun p => goToLower p == inputLower) with
    | some p => Except.ok p
    | none =>
      match providers.find? (fun p => goContains (goToLower p) inputLower) with
      | some p => Except.ok p
      | none => Except.error input

/-- The catalog of the specification's worked example. -/
def exampleCatalog : List String := ["Électricité Co", "water-corp", "Water Corp Admin"]

/-- Claim C1 counterexample: on the spec's own example the substring tier
does not match `"water-corp"` (the space-separated input is not a substring
of the hyphenated name); the resolver returns `"Water Corp Admin"`. -/
theorem C1_counterexample :
    resolveProvider "water corp" exampleCatalog = Except.ok "Water Corp Admin" ∧
    Except.ok "Water Corp Admin" ≠ (Except.ok "water-corp" : Except String String) := by
  constructor
  · decide
  · decide

/-- Claim C1 (amended): tiers 1 and 2 fail on the example, `"water-corp"`
does not contain the input `"water corp"`, and the substring tier resolves
to `"Water Corp Admin"`, the first (and only) catalog entry containing the
trimmed-lowercased input. -/
theorem C1_amended :
    resolveProvider "water corp" exampleCatalog = Except.ok "Water Corp Admin" ∧
    resolveTiers "water corp" exampleCatalog = Except.ok "Water Corp Admin" ∧
    (∀ p ∈ exampleCatalog, p ≠ "water corp") ∧
    (∀ p ∈ exampleCatalog, goToLower p ≠ goToLower (goTrimSpace "water corp")) ∧
    goContains (goToLower "water-corp") (goToLower (goTrimSpace "water corp")) = false ∧
    goContains (goToLower "Water Corp Admin") (goToLower (goTrimSpace "water corp")) = true := by
  refine ⟨by decide, by decide, by decide, by decide, by decide, by decide⟩

/-- Claim C3 counterexample: for the non-empty input `" "` (one space) and
catalog `["x"]`, no tier matches byte-exactly, yet the resolver neither
runs the substring tier (which would match, since every string contains
the empty trimmed input) nor fails: it returns the no-filter result,
because the trimmed-lowercased input is empty. -/
theorem C3_counterexample :
    resolveProvider " " ["x"] = Except.ok "" ∧
    resolveTiers " " ["x"] = Except.ok "x" ∧
    resolveProvider " " ["x"] ≠ resolveTiers " " ["x"] := by
  refine ⟨by decide, by decide, by decide⟩

/-- Claim C3 (amended): for every non-empty input whose trimmed-lowercased
form is also non-empty, the resolver is exactly the three-tier cascade from
the spec, first match winning in catalog order; a byte-exact hit is
returned (never shadowed); and when every tier fails on every entry the
result is the not-found error carrying the original input. -/
theorem C3_amended (input : String) (ps : List String) (h1 : input ≠ "")
    (h2 : goToLower (goTrimSpace input) ≠ "") :
    resolveProvider input ps = resolveTiers input ps ∧
    (input ∈ ps → resolveProvider input ps = Except.ok input) ∧
    ((∀ p ∈ ps, p ≠ input ∧ goToLower p ≠ goToLower (goTrimSpace input) ∧
        goContains (goToLower p) (goToLower (goTrimSpace input)) = false) →
      resolveProvider input ps = Except.error input) := by
  refine ⟨?_, ?_, ?_⟩
  · simp only [resolveProvider, resolveTiers, if_neg h1]
    cases hf : ps.find? (fun p => p == input) with
    | some p => simp [hf]
    | none => simp [hf, h2]
  · intro hmem
    have hs : (ps.find? (fun p => p == input)).isSome :=
      List.find?_isSome.mpr ⟨input, hmem, by simp⟩
    obtain ⟨q, hq⟩ := Option.isSome_iff_exists.mp hs
    have hqe : q = input := by
      have := List.find?_some hq
      simpa using this
    simp only [resolveProvider, if_neg h1, hq, hqe]
  · intro hall
    have t1 : ps.find? (fun p => p == input) = none := by
      rw [List.find?_eq_none]
      intro x hx
      simpa using (hall x hx).1
    have t2 : ps.find? (fun p => goToLower p == goToLower (goTrimSpace input)) = none := by
      rw [List.find?_eq_none]
      intro x hx
      simpa using (hall x hx).2.1
    have t3 : ps.find? (fun p => goContains (goToLower p) (goToLower (goTrimSpace input))) = none := by
      rw [List.find?_eq_none]
      intro x hx
      simpa using (hall x hx).2.2
    simp only [resolveProvider, if_neg h1, if_neg h2, t1, t2, t3]

theorem C3_amended_witness :
    resolveProvider "Gas" ["Gas", "Electric"] = resolveTiers "Gas" ["Gas", "Electric"] ∧
    resolveProvider "Gas" ["Gas", "Electric"] = Except.ok "Gas" ∧
    resolveProvider "gasx" ["Water"] = Except.error "gasx" := by
  have ha := C3_amended "Gas" ["Gas", "Electric"] (by decide) (by decide)
  have hb := C3_amended "gasx" ["Water"] (by decide) (by decide)
  exact ⟨ha.1, ha.2.1 (by decide), hb.2.2 (by decide)⟩

/-! ## Date range planner (`run` lines 71-73, 75-85, 110-128, and
`promptResume` lines 233-245)

The planner combines the parsed explicit bounds, the two mode flags and the
scanner's `(latest, found)` result into the effective range.  An open bound
is the zero date, exactly as in the source (`time.Time{}` / `IsZero`).  The
blocking interactive confirmation is the injected `confirm` function; the
source instantiates it with `promptResume`, whose answer handling is
modelled on the line read from standard input. -/

inductive PlanError where
  | conflictingFlags
  | invalidRange (frm toD : Date)
deriving DecidableEq, Repr

/-- Lines 243-244: trim and lowercase the operator's answer; empty, `y` and
`yes` confirm, anything else declines. -/
def promptResume (input : String) : Bool :=
  let answer := goToLower (goTrimSpace input)
  answer == "" || answer == "y" || answer == "yes"

/-- The Date Range Planner assembled from `run`: the mutual-exclusion check
(line 71), the range validity check (line 83, `!from.IsZero() &&
!toD.IsZero() && from.After(toD)`), the redownload reset (lines 114-116) and
the resume logic (lines 117-128). -/
def plan (frm toD : Date) (resume redownload : Bool) (latest : Date)
    (found : Bool) (confirm : Date → Bool) : Except PlanError (Date × Date) :=
  if resume && redownload then Except.error PlanError.conflictingFlags
  else if frm ≠ zeroDate ∧ toD ≠ zeroDate ∧ dateLt toD frm then
    Except.error (PlanError.invalidRange frm toD)
  else if redownload then Except.ok (zeroDate, zeroDate)
  else
    let shouldResume := if !resume && found then confirm latest else resume
    if shouldResume && found then Except.ok (addOneDay latest, toD)
    else Except.ok (frm, toD)

/-- Claim C6: with both the resume and the redownload flag set, the planner
fails with the conflicting-flags error whatever all its other inputs are. -/
theorem C6_conflictingFlags (frm toD latest : Date) (found : Bool)
    (confirm : Date → Bool) :
    plan frm toD true true latest found confirm =
      Except.error PlanError.conflictingFlags := by
  simp [plan]

/-- Claim C7: with both explicit bounds set and `from` strictly after `toD`
(and the two mode flags not jointly set, which would fail earlier with the
conflicting-flags error), the planner fails with the invalid-range error,
for every flag setting and local state. -/
theorem C7_invalidRange (frm toD latest : Date) (resume redownload found : Bool)
    (confirm : Date → Bool) (hc : ¬(resume = true ∧ redownload = true))
    (hf : frm ≠ zeroDate) (ht : toD ≠ zeroDate) (hlt : dateLt toD frm) :
    plan frm toD resume redownload latest found confirm =
      Except.error (PlanError.invalidRange frm toD) := by
  have hb : (resume && redownload) = false := by
    cases resume <;> cases redownload <;> simp_all
  simp [plan, hb, hf, ht, hlt]

theorem C7_invalidRange_witness :
    plan ⟨2024, 5, 1⟩ ⟨2024, 1, 1⟩ false false zeroDate false (fun _ => true) =
      Except.error (PlanError.invalidRange ⟨2024, 5, 1⟩ ⟨2024, 1, 1⟩) :=
  C7_invalidRange ⟨2024, 5, 1⟩ ⟨2024, 1, 1⟩ zeroDate false false false
    (fun _ => true) (by decide) (by decide) (by decide) (by decide)

/-- Claim C5: whenever the redownload flag is set and the planner produces
an effective range at all, that range is fully open — both bounds are the
zero (open) bound — regardless of the explicit bounds, the resume flag and
the local scan state. -/
theorem C5_redownloadOpen (frm toD latest : Date) (resume found : Bool)
    (confirm : Date → Bool) (r : Date × Date)
    (h : plan frm toD resume true latest found confirm = Except.ok r) :
    r = (zeroDate, zeroDate) := by
  cases resume with
  | true => simp [plan] at h
  | false =>
    by_cases hv : frm ≠ zeroDate ∧ toD ≠ zeroDate ∧ dateLt toD frm
    · simp [plan, hv] at h
    · simp [plan, hv] at h
      exact h.symm

theorem C5_redownloadOpen_witness :
    plan ⟨2024, 1, 1⟩ ⟨2024, 5, 1⟩ false true ⟨2024, 3, 5⟩ true (fun _ => true) =
      Except.ok (zeroDate, zeroDate) ∧
    ((zeroDate, zeroDate) : Date × Date) = (zeroDate, zeroDate) := by
  refine ⟨by decide, ?_⟩
  exact C5_redownloadOpen ⟨2024, 1, 1⟩ ⟨2024, 5, 1⟩ ⟨2024, 3, 5⟩ false true
    (fun _ => true) (zeroDate, zeroDate) (by decide)

/-- Claim C4: with the resume and redownload flags unset and local invoices
found, the planner consults the confirmation function at the scanned latest
date; `promptResume` confirms exactly on a trimmed answer that is empty or
equals `y`/`yes` case-insensitively; on confirmation — interactive or via
the explicit resume flag — the effective `from` is `latest + 1 day`,
overriding any explicitly supplied `from`; on decline the explicit bounds
pass through unmodified.  (The explicit bounds are assumed to pass the
validity check of line 83, which runs first.) -/
theorem C4_resumeConfirmation (frm toD latest : Date) (answer : String)
    (confirm : Date → Bool)
    (hv : ¬(frm ≠ zeroDate ∧ toD ≠ zeroDate ∧ dateLt toD frm)) :
    (promptResume answer = true ↔
      (goToLower (goTrimSpace answer) = "" ∨
       goToLower (goTrimSpace answer) = "y" ∨
       goToLower (goTrimSpace answer) = "yes")) ∧
    plan frm toD false false latest true confirm =
      Except.ok (if confirm latest then (addOneDay latest, toD) else (frm, toD)) ∧
    plan frm toD true false latest true confirm =
      Except.ok (addOneDay latest, toD) := by
  refine ⟨?_, ?_, ?_⟩
  · simp [promptResume, or_assoc]
  · cases hc : confirm latest <;> simp [plan, hv, hc]
  · simp [plan, hv]

theorem C4_resumeConfirmation_witness :
    (promptResume " YES\n" = true ↔
      (goToLower (goTrimSpace " YES\n") = "" ∨
       goToLower (goTrimSpace " YES\n") = "y" ∨
       goToLower (goTrimSpace " YES\n") = "yes")) ∧
    plan ⟨2024, 1, 1⟩ zeroDate false false ⟨2024, 2, 10⟩ true
        (fun _ => promptResume " YES\n") =
      Except.ok (if promptResume " YES\n" then (addOneDay ⟨2024, 2, 10⟩, zeroDate)
                 else (⟨2024, 1, 1⟩, zeroDate)) ∧
    plan ⟨2024, 1, 1⟩ zeroDate true false ⟨2024, 2, 10⟩ true
        (fun _ => promptResume " YES\n") =
      Except.ok (addOneDay ⟨2024, 2, 10⟩, zeroDate) :=
  C4_resumeConfirmation ⟨2024, 1, 1⟩ zeroDate ⟨2024, 2, 10⟩ " YES\n"
    (fun _ => promptResume " YES\n") (by decide)

/-- Claim C10: with the resume flag set, the redownload flag unset and the
scan reporting no local invoices, the planner applies no override — the
explicit bounds pass through unmodified — and no prompt occurs: the result
does not depend on the confirmation function.  (Bounds assumed to pass the
line-83 validity check, which runs first.) -/
theorem C10_resumeNoLocal (frm toD latest : Date) (confirm confirm2 : Date → Bool)
    (hv : ¬(frm ≠ zeroDate ∧ toD ≠ zeroDate ∧ dateLt toD frm)) :
    plan frm toD true false latest false confirm = Except.ok (frm, toD) ∧
    plan frm toD true false latest false confirm =
      plan frm toD true false latest false confirm2 := by
  constructor
  · simp [plan, hv]
  · simp [plan, hv]

theorem C10_resumeNoLocal_witness :
    plan ⟨2024, 1, 1⟩ ⟨2024, 6, 1⟩ true false ⟨2024, 2, 10⟩ false (fun _ => true) =
      Except.ok (⟨2024, 1, 1⟩, ⟨2024, 6, 1⟩) ∧
    plan ⟨2024, 1, 1⟩ ⟨2024, 6, 1⟩ true false ⟨2024, 2, 10⟩ false (fun _ => true) =
      plan ⟨2024, 1, 1⟩ ⟨2024, 6, 1⟩ true false ⟨2024, 2, 10⟩ false (fun _ => false) :=
  C10_resumeNoLocal ⟨2024, 1, 1⟩ ⟨2024, 6, 1⟩ ⟨2024, 2, 10⟩
    (fun _ => true) (fun _ => false) (by decide)

/-! ## Download orchestrator (`run` lines 162-183)

The per-invoice loop: progress reporting and directory creation are
side-effect-only (directory creation is a raw filesystem primitive outside
this core and is modelled as succeeding); the external
`srv.DownloadInvoice` collaborator is the injected `dl` predicate (`true` =
success).  `downloadLoop` returns the invoices for which a download was
attempted, in order, together with the error outcome. -/

structure Invoice where
  provider : String
  issuerID : String
  invoiceID : String
  dateOfIssue : Date
deriving DecidableEq, Repr

inductive LoopError where
  | downloadFailed (invoiceID : String)
deriving DecidableEq, Repr

def natDecimalAux : Nat → Nat → List Char
  | 0, _ => []
  | fuel + 1, n =>
    if n < 10 then [Char.ofNat (48 + n)]
    else natDecimalAux fuel (n / 10) ++ [Char.ofNat (48 + n % 10)]

/-- Decimal digits of a natural number. -/
def natDecimal (n : Nat) : String := ⟨natDecimalAux (n + 1) n⟩

/-- Left-pad with zeros to the given width. -/
def padZero (w : Nat) (s : String) : String :=
  ⟨List.replicate (w - s.data.length) '0' ++ s.data⟩

/-- Go `t.Format("2006-01-02")`: zero-padded 4-digit year, 2-digit month and
day, hyphen-separated. -/
def formatDate (d : Date) : String :=
  padZero 4 (natDecimal d.year) ++ "-" ++ padZero 2 (natDecimal d.month) ++
    "-" ++ padZero 2 (natDecimal d.day)

/-- Line 170: the filename stem `invoice.DateOfIssue.Format(dateLayout) +
"_" + strings.ReplaceAll(invoice.InvoiceID, "/", "_")`. -/
def invoiceFilename (inv : Invoice) : String :=
  formatDate inv.dateOfIssue ++ "_" ++ goReplaceAllChar inv.invoiceID '/' '_'

/-- Lines 162-183: attempt each invoice in catalog order; on the first
download failure stop and return the error wrapped with that invoice's
identifier.  The first component lists the invoices attempted, in order. -/
def downloadLoop (dl : Invoice → Bool) :
    List Invoice → List Invoice × Option LoopError
  | [] => ([], none)
  | inv :: rest =>
    if dl inv then
      let r := downloadLoop dl rest
      (inv :: r.1, r.2)
    else ([inv], some (LoopError.downloadFailed inv.invoiceID))

/-- Claim C8: if every invoice before position `i` downloads successfully
and the `i`-th fails, the orchestration attempts exactly the invoices up
to and including position `i` — each once, none after it — and returns the
error wrapped with the failing invoice's identifier; there is no
continue-on-error mode and no retry. -/
theorem C8_stopOnFailure (pre post : List Invoice) (inv : Invoice)
    (dl : Invoice → Bool) (hpre : ∀ x ∈ pre, dl x = true)
    (hinv : dl inv = false) :
    downloadLoop dl (pre ++ inv :: post) =
      (pre ++ [inv], some (LoopError.downloadFailed inv.invoiceID)) := by
  induction pre with
  | nil => simp [downloadLoop, hinv]
  | cons a l ih =>
    have ha : dl a = true := hpre a (List.mem_cons_self a l)
    have hl : ∀ x ∈ l, dl x = true :=
      fun x hx => hpre x (List.mem_cons_of_mem a hx)
    simp only [List.cons_append, downloadLoop, ha, if_true, List.append_eq,
      ih hl]

def sampleDl (inv : Invoice) : Bool := inv.invoiceID != "2024/002"

def invA : Invoice := ⟨"Water Corp", "555", "2024/001", ⟨2024, 3, 5⟩⟩
def invB : Invoice := ⟨"Water Corp", "555", "2024/002", ⟨2024, 4, 5⟩⟩
def invC : Invoice := ⟨"Water Corp", "555", "2024/003", ⟨2024, 5, 5⟩⟩

theorem C8_stopOnFailure_witness :
    downloadLoop sampleDl ([invA] ++ invB :: [invC]) =
      ([invA] ++ [invB], some (LoopError.downloadFailed "2024/002")) :=
  C8_stopOnFailure [invA] [invC] invB sampleDl (by decide) (by decide)

/-- Claim C9: the derived filename stem is the ISO date of issue, a literal
underscore, and the invoice identifier with every `/` replaced by `_`; in
particular invoice `2024/001` issued 2024-03-05 yields
`2024-03-05_2024_001`, and no slash survives the replacement. -/
theorem C9_filenameStem :
    invoiceFilename ⟨"Water Corp", "555", "2024/001", ⟨2024, 3, 5⟩⟩ =
      "2024-03-05_2024_001" ∧
    formatDate ⟨2024, 3, 5⟩ = "2024-03-05" ∧
    (∀ inv : Invoice,
      invoiceFilename inv =
        formatDate inv.dateOfIssue ++ "_" ++ goReplaceAllChar inv.invoiceID '/' '_' ∧
      '/' ∉ (goReplaceAllChar inv.invoiceID '/' '_').data) := by
  refine ⟨by decide, by decide, fun inv => ⟨rfl, ?_⟩⟩
  intro hmem
  obtain ⟨c, _, hc⟩ := List.mem_map.mp hmem
  by_cases h : c = '/' <;> simp [h] at hc

end Dijnet
